import Mathlib

/-!
Verification of the drawing-canvas module (`src/canvas.py`) of the
air-board-cv repository.

The module is a single class `DrawingCanvas` holding a `height × width × 3`
`uint8` pixel buffer (`canvas`), an optional previous stroke point
(`prev_point`), and fixed brush/eraser sizes.  We embed the class as a Lean
structure and every method as a state-passing function.  The OpenCV drawing
primitives (`cv2.line`, `cv2.circle` with thickness `-1`) are external to the
repository; they are modelled from the spec as per-pixel predicate fills
(a filled disc, and a thick segment as the set of pixels within half the
thickness of the segment).  Colors written to the `uint8` buffer are
saturated to `[0, 255]` as OpenCV does.
-/

/-- A pixel / color: three `uint8` channels (BGR), modelled as naturals. -/
abbrev Pixel : Type := Nat × Nat × Nat

/-- A 2D integer coordinate `(x, y)` as passed by callers. -/
abbrev Point : Type := Int × Int

/-- An image: a list of rows, each row a list of pixels (row-major,
matching the numpy `(height, width, 3)` layout, indexed `canvas[y][x]`). -/
abbrev Image : Type := List (List Pixel)

/-- The zero (black) pixel. -/
def pix0 : Pixel := (0, 0, 0)

/-- `np.zeros((height, width, 3), dtype=np.uint8)`: an all-zero
`height × width` image. -/
def mkZeros (height width : Nat) : Image :=
  List.replicate height (List.replicate width pix0)

/-- OpenCV saturates color values written to a `uint8` buffer to `[0,255]`. -/
def clampPix (c : Pixel) : Pixel :=
  (min c.1 255, min c.2.1 255, min c.2.2 255)

/-- Paint one row: every pixel at column `x` (counting from `x0`) with
`pred x y = true` is overwritten by `color`. -/
def paintRow (pred : Nat → Nat → Bool) (y : Nat) (color : Pixel) :
    Nat → List Pixel → List Pixel
  | _, [] => []
  | x0, p :: ps =>
      (if pred x0 y then color else p) :: paintRow pred y color (x0 + 1) ps

/-- Paint an image: every pixel at position `(x, y)` with `pred x y = true`
is overwritten by `color`; all other pixels are untouched. -/
def paintImg (pred : Nat → Nat → Bool) (color : Pixel) :
    Nat → Image → Image
  | _, [] => []
  | y0, row :: rows =>
      paintRow pred y0 color 0 row :: paintImg pred color (y0 + 1) rows

/-- Membership of pixel `(x, y)` in the closed disc of radius `r`
around `center`. -/
def discPred (center : Point) (r : Nat) (x y : Nat) : Bool :=
  ((x : Int) - center.1) ^ 2 + ((y : Int) - center.2) ^ 2 ≤ (r : Int) ^ 2

/-- Membership of pixel `(x, y)` in the thick segment from `a` to `b` of
thickness `t`: the squared distance from the pixel to the segment is at most
`(t/2)^2`, i.e. `4·dist² ≤ t²`, computed exactly over the integers. -/
def segPred (a b : Point) (t : Nat) (x y : Nat) : Bool :=
  let d : Point := (b.1 - a.1, b.2 - a.2)
  let v : Point := ((x : Int) - a.1, (y : Int) - a.2)
  let w : Point := ((x : Int) - b.1, (y : Int) - b.2)
  let dot : Int := v.1 * d.1 + v.2 * d.2
  let len2 : Int := d.1 ^ 2 + d.2 ^ 2
  if len2 = 0 then 4 * (v.1 ^ 2 + v.2 ^ 2) ≤ (t : Int) ^ 2
  else if dot ≤ 0 then 4 * (v.1 ^ 2 + v.2 ^ 2) ≤ (t : Int) ^ 2
  else if len2 ≤ dot then 4 * (w.1 ^ 2 + w.2 ^ 2) ≤ (t : Int) ^ 2
  else 4 * ((v.1 ^ 2 + v.2 ^ 2) * len2 - dot ^ 2) ≤ (t : Int) ^ 2 * len2

/-- Modelled from the spec: `cv2.circle(img, center, radius, color, -1)`
(external to the repository) rasterizes a filled disc of the given radius
centered at `center`, filled with `color`. -/
def cvCircle (img : Image) (center : Point) (radius : Nat) (color : Pixel) :
    Image :=
  paintImg (discPred center radius) (clampPix color) 0 img

/-- Modelled from the spec: `cv2.line(img, start, end, color, thickness)`
(external to the repository) rasterizes a visually continuous straight
segment of the given thickness between the two endpoints, filled with
`color`. -/
def cvLine (img : Image) (a b : Point) (color : Pixel) (thickness : Nat) :
    Image :=
  paintImg (segPred a b thickness) (clampPix color) 0 img

/-- `np.any(canvas > 0, axis=2)` at one pixel: some channel is `> 0`. -/
def pixelNonzero (p : Pixel) : Bool :=
  decide (0 < p.1) || decide (0 < p.2.1) || decide (0 < p.2.2)

/-- Shape agreement of two images (numpy boolean-mask indexing requires the
mask's shape to match the indexed array's spatial shape, else it raises). -/
def shapeEq : Image → Image → Bool
  | [], [] => true
  | ra :: a, rb :: b => ra.length == rb.length && shapeEq a b
  | _, _ => false

/-- `result[mask] = canvas[mask]` pixel-wise: where the canvas pixel has any
non-zero channel, take the canvas pixel, otherwise keep the frame pixel. -/
def compositePix (cp fp : Pixel) : Pixel :=
  if pixelNonzero cp then cp else fp

/-- The masked copy over a whole image. -/
def compositeImg (canvas frame : Image) : Image :=
  List.zipWith (fun cr fr => List.zipWith compositePix cr fr) canvas frame

/-- The state of `DrawingCanvas`: pixel buffer, optional previous stroke
point, brush and eraser sizes, and the stored dimensions. -/
structure DrawingCanvas where
  width : Nat
  height : Nat
  canvas : Image
  prev_point : Option Point
  brush_size : Nat
  eraser_size : Nat
  deriving DecidableEq, Repr

namespace DrawingCanvas

/-- `__init__(width, height)`: zeroed surface, brush size 5, eraser size 30,
no previous point. -/
def new (width height : Nat) : DrawingCanvas :=
  { width := width
    height := height
    canvas := mkZeros height width
    prev_point := none
    brush_size := 5
    eraser_size := 30 }

/-- `reset()`: re-zero the surface and clear the previous point. -/
def reset (c : DrawingCanvas) : DrawingCanvas :=
  { c with canvas := mkZeros c.height c.width, prev_point := none }

/-- `draw_line(start, end, color)`: no-op if either endpoint is `None`,
else `cv2.line` with brush thickness. -/
def draw_line (c : DrawingCanvas) (start stop : Option Point)
    (color : Pixel) : DrawingCanvas :=
  match start, stop with
  | some s, some e =>
      { c with canvas := cvLine c.canvas s e color c.brush_size }
  | _, _ => c

/-- `draw_point(point, color)`: no-op if `point` is `None`, else a filled
`cv2.circle` of radius `brush_size`. -/
def draw_point (c : DrawingCanvas) (point : Option Point)
    (color : Pixel) : DrawingCanvas :=
  match point with
  | some p => { c with canvas := cvCircle c.canvas p c.brush_size color }
  | none => c

/-- `draw_from_previous(current_point, color)`: no-op on `None`; a line from
the previous point if one exists, else an isolated point; then the previous
point is set to `current_point`. -/
def draw_from_previous (c : DrawingCanvas) (current_point : Option Point)
    (color : Pixel) : DrawingCanvas :=
  match current_point with
  | none => c
  | some p =>
      let c1 :=
        match c.prev_point with
        | some _ => c.draw_line c.prev_point (some p) color
        | none => c.draw_point (some p) color
      { c1 with prev_point := some p }

/-- `clear_previous()`: clear the previous point. -/
def clear_previous (c : DrawingCanvas) : DrawingCanvas :=
  { c with prev_point := none }

/-- `erase_at(point)`: no-op if `point` is `None`, else a filled
`cv2.circle` of radius `eraser_size` with color `(0, 0, 0)`. -/
def erase_at (c : DrawingCanvas) (point : Option Point) : DrawingCanvas :=
  match point with
  | some p =>
      { c with canvas := cvCircle c.canvas p c.eraser_size (0, 0, 0) }
  | none => c

/-- `get_canvas()`: the current surface. -/
def get_canvas (c : DrawingCanvas) : Image := c.canvas

/-- `resize(width, height)`: store the new dimensions, replace the surface
with a zeroed buffer of those dimensions, clear the previous point. -/
def resize (c : DrawingCanvas) (width height : Nat) : DrawingCanvas :=
  { c with
      width := width
      height := height
      canvas := mkZeros height width
      prev_point := none }

/-- `add_to_frame(frame)`: a masked copy of the canvas onto a copy of
`frame`.  The method reads but never writes `self`, so the post-state is the
pre-state.  Numpy's boolean-mask assignment `result[mask] = canvas[mask]`
raises `IndexError` when the mask's shape differs from `result`'s spatial
shape; that failure is modelled as `none`. -/
def add_to_frame (c : DrawingCanvas) (frame : Image) :
    Option Image × DrawingCanvas :=
  (if shapeEq c.canvas frame then some (compositeImg c.canvas frame)
   else none, c)

end DrawingCanvas

/-! ## Helper lemmas on indexing -/

theorem getD_zipWith_helper {α β γ : Type} (f : α → β → γ) (da : α) (db : β)
    (d : γ) :
    ∀ (as : List α) (bs : List β) (i : Nat), i < as.length → i < bs.length →
      (List.zipWith f as bs).getD i d = f (as.getD i da) (bs.getD i db)
  | [], _, i, ha, _ => absurd ha (by simp)
  | _ :: _, [], i, _, hb => absurd hb (by simp)
  | a :: as, b :: bs, 0, _, _ => rfl
  | a :: as, b :: bs, i + 1, ha, hb =>
      getD_zipWith_helper f da db d as bs i
        (Nat.lt_of_succ_lt_succ ha) (Nat.lt_of_succ_lt_succ hb)

theorem shapeEq_length : ∀ a b : Image, shapeEq a b = true →
    a.length = b.length
  | [], [], _ => rfl
  | [], _ :: _, h => by simp [shapeEq] at h
  | _ :: _, [], h => by simp [shapeEq] at h
  | _ :: a, _ :: b, h => by
      simp only [shapeEq, Bool.and_eq_true] at h
      simp [shapeEq_length a b h.2]

theorem shapeEq_row_length : ∀ a b : Image, shapeEq a b = true →
    ∀ i : Nat, (a.getD i []).length = (b.getD i []).length
  | [], [], _, _ => rfl
  | [], _ :: _, h, _ => by simp [shapeEq] at h
  | _ :: _, [], h, _ => by simp [shapeEq] at h
  | ra :: a, rb :: b, h, i => by
      simp only [shapeEq, Bool.and_eq_true, beq_iff_eq] at h
      match i with
      | 0 => exact h.1
      | i + 1 => exact shapeEq_row_length a b h.2 i

theorem paintRow_getD (pred : Nat → Nat → Bool) (y : Nat) (color : Pixel) :
    ∀ (row : List Pixel) (x0 x : Nat), x < row.length →
      (paintRow pred y color x0 row).getD x pix0 =
        if pred (x0 + x) y then color else row.getD x pix0
  | [], _, x, hx => absurd hx (by simp)
  | p :: ps, x0, 0, _ => by simp [paintRow]
  | p :: ps, x0, x + 1, hx => by
      have ih := paintRow_getD pred y color ps (x0 + 1) x
        (Nat.lt_of_succ_lt_succ hx)
      simp only [paintRow, List.getD_cons_succ, ih,
        Nat.add_right_comm x0 1 x, Nat.add_assoc]

theorem paintImg_getD (pred : Nat → Nat → Bool) (color : Pixel) :
    ∀ (img : Image) (y0 y : Nat), y < img.length →
      (paintImg pred color y0 img).getD y [] =
        paintRow pred (y0 + y) color 0 (img.getD y [])
  | [], _, y, hy => absurd hy (by simp)
  | row :: rows, y0, 0, _ => by simp [paintImg]
  | row :: rows, y0, y + 1, hy => by
      have ih := paintImg_getD pred color rows (y0 + 1) y
        (Nat.lt_of_succ_lt_succ hy)
      simp only [paintImg, List.getD_cons_succ, ih,
        Nat.add_right_comm y0 1 y, Nat.add_assoc]

/-- The pixel of a painted image at an in-bounds position `(x, y)`. -/
theorem paintImg_pixel (pred : Nat → Nat → Bool) (color : Pixel)
    (img : Image) (y x : Nat) (hy : y < img.length)
    (hx : x < (img.getD y []).length) :
    ((paintImg pred color 0 img).getD y []).getD x pix0 =
      if pred x y then color else (img.getD y []).getD x pix0 := by
  rw [paintImg_getD pred color img 0 y hy,
    paintRow_getD pred (0 + y) color (img.getD y []) 0 x hx]
  simp

theorem getD_replicate_helper {α : Type} (a d : α) :
    ∀ n i : Nat, (List.replicate n a).getD i d = if i < n then a else d
  | 0, i => by simp
  | n + 1, 0 => by simp
  | n + 1, i + 1 => by
      rw [List.replicate_succ, List.getD_cons_succ,
        getD_replicate_helper a d n i]
      simp [Nat.succ_lt_succ_iff]

theorem mkZeros_length (h w : Nat) : (mkZeros h w).length = h := by
  simp [mkZeros]

theorem mkZeros_row_length (h w y : Nat) :
    ((mkZeros h w).getD y []).length = if y < h then w else 0 := by
  rw [mkZeros, getD_replicate_helper]
  split <;> simp

theorem mkZeros_pixel (h w y x : Nat) :
    ((mkZeros h w).getD y []).getD x pix0 = pix0 := by
  rw [mkZeros, getD_replicate_helper]
  split
  · rw [getD_replicate_helper]; split <;> rfl
  · rfl

/-! ## Claim theorems -/

/-- C1: when the frame's spatial dimensions match the surface's,
`add_to_frame` returns an image whose pixel at each in-bounds position is
the surface's pixel when some channel of it is non-zero, and the frame's
pixel otherwise. -/
theorem add_to_frame_masked_composite (c : DrawingCanvas) (frame : Image)
    (h : shapeEq c.canvas frame = true) :
    ∃ out, (c.add_to_frame frame).1 = some out ∧
      ∀ y x : Nat, y < c.canvas.length → x < (c.canvas.getD y []).length →
        (out.getD y []).getD x pix0 =
          if pixelNonzero ((c.canvas.getD y []).getD x pix0) = true
          then (c.canvas.getD y []).getD x pix0
          else (frame.getD y []).getD x pix0 := by
  refine ⟨compositeImg c.canvas frame, ?_, ?_⟩
  · simp [DrawingCanvas.add_to_frame, h]
  · intro y x hy hx
    have hy' : y < frame.length := (shapeEq_length _ _ h) ▸ hy
    have hx' : x < (frame.getD y []).length :=
      (shapeEq_row_length _ _ h y) ▸ hx
    rw [compositeImg,
      getD_zipWith_helper (fun cr fr => List.zipWith compositePix cr fr)
        [] [] [] c.canvas frame y hy hy',
      getD_zipWith_helper compositePix pix0 pix0 pix0
        (c.canvas.getD y []) (frame.getD y []) x hx hx']
    rfl

/-- C2: `draw_from_previous` with a present point draws a brush-thickness
line from the stored previous point when one exists, an isolated filled
disc of brush radius when none does, and in both cases sets the previous
point to the current point; with an absent point it is a no-op. -/
theorem draw_from_previous_branch_spec (c : DrawingCanvas) (p : Point)
    (col : Pixel) :
    (∀ q : Point, c.prev_point = some q →
      c.draw_from_previous (some p) col =
        { c with canvas := cvLine c.canvas q p col c.brush_size,
                 prev_point := some p }) ∧
    (c.prev_point = none →
      c.draw_from_previous (some p) col =
        { c with canvas := cvCircle c.canvas p c.brush_size col,
                 prev_point := some p }) ∧
    c.draw_from_previous none col = c := by
  refine ⟨?_, ?_, rfl⟩
  · intro q hq
    simp [DrawingCanvas.draw_from_previous, DrawingCanvas.draw_line, hq]
  · intro h
    simp [DrawingCanvas.draw_from_previous, DrawingCanvas.draw_point, h]

/-- C3: when the frame's spatial dimensions differ from the surface's,
`add_to_frame` fails (numpy's boolean-mask assignment raises `IndexError`,
modelled as `none`) instead of returning an image. -/
theorem add_to_frame_shape_mismatch_fails (c : DrawingCanvas)
    (frame : Image) (h : shapeEq c.canvas frame = false) :
    (c.add_to_frame frame).1 = none := by
  simp [DrawingCanvas.add_to_frame, h]

/-- C4: `add_to_frame` does not change the canvas state, and a second call
on the resulting state with the same frame returns the same output. -/
theorem add_to_frame_pure (c : DrawingCanvas) (frame : Image) :
    (c.add_to_frame frame).2 = c ∧
    (((c.add_to_frame frame).2).add_to_frame frame).1 =
      (c.add_to_frame frame).1 :=
  ⟨rfl, rfl⟩

/-- C5: `erase_at` with a present point writes the pure-zero pixel over the
whole in-bounds disc of radius `eraser_size`, leaves every pixel outside
the disc unchanged, and leaves the previous point exactly as it was. -/
theorem erase_at_zeroes_disc_preserves_prev (c : DrawingCanvas)
    (p : Point) :
    (c.erase_at (some p)).prev_point = c.prev_point ∧
    (∀ y x : Nat, y < c.canvas.length → x < (c.canvas.getD y []).length →
      discPred p c.eraser_size x y = true →
      ((c.erase_at (some p)).canvas.getD y []).getD x pix0 = pix0) ∧
    (∀ y x : Nat, y < c.canvas.length → x < (c.canvas.getD y []).length →
      discPred p c.eraser_size x y = false →
      ((c.erase_at (some p)).canvas.getD y []).getD x pix0 =
        (c.canvas.getD y []).getD x pix0) := by
  refine ⟨rfl, ?_, ?_⟩
  · intro y x hy hx hd
    show ((cvCircle c.canvas p c.eraser_size (0, 0, 0)).getD y []).getD
      x pix0 = pix0
    rw [cvCircle, paintImg_pixel _ _ _ _ _ hy hx, hd]
    rfl
  · intro y x hy hx hd
    show ((cvCircle c.canvas p c.eraser_size (0, 0, 0)).getD y []).getD
      x pix0 = (c.canvas.getD y []).getD x pix0
    rw [cvCircle, paintImg_pixel _ _ _ _ _ hy hx, hd]
    rfl

/-- C6: `draw_point`, `erase_at` and `draw_from_previous` with an absent
point, and `draw_line` with either endpoint absent, return the state
unchanged. -/
theorem absent_point_noop (c : DrawingCanvas) (col : Pixel)
    (s e : Option Point) :
    c.draw_point none col = c ∧
    c.erase_at none = c ∧
    c.draw_from_previous none col = c ∧
    c.draw_line none e col = c ∧
    c.draw_line s none col = c := by
  refine ⟨rfl, rfl, rfl, ?_, ?_⟩
  · cases e <;> rfl
  · cases s <;> rfl

/-- C7: `reset` re-zeroes the surface to the stored `height × width`
dimensions, clears the previous point, and the next `draw_from_previous`
renders an isolated disc rather than a line. -/
theorem reset_spec (c : DrawingCanvas) (p : Point) (col : Pixel) :
    (c.reset).get_canvas = mkZeros c.height c.width ∧
    (c.reset).get_canvas.length = c.height ∧
    (∀ y : Nat, ((c.reset).get_canvas.getD y []).length =
      if y < c.height then c.width else 0) ∧
    (∀ y x : Nat, ((c.reset).get_canvas.getD y []).getD x pix0 = pix0) ∧
    (c.reset).prev_point = none ∧
    (c.reset).draw_from_previous (some p) col =
      { c.reset with
          canvas := cvCircle (mkZeros c.height c.width) p c.brush_size col,
          prev_point := some p } := by
  refine ⟨rfl, mkZeros_length _ _, fun y => mkZeros_row_length _ _ y,
    fun y x => mkZeros_pixel _ _ y x, rfl, rfl⟩

/-- C8: `resize w2 h2` replaces the surface with an all-zero buffer of
dimensions exactly `w2 × h2` and clears the previous point. -/
theorem resize_spec (c : DrawingCanvas) (w2 h2 : Nat) :
    (c.resize w2 h2).width = w2 ∧
    (c.resize w2 h2).height = h2 ∧
    (c.resize w2 h2).get_canvas = mkZeros h2 w2 ∧
    (c.resize w2 h2).get_canvas.length = h2 ∧
    (∀ y : Nat, ((c.resize w2 h2).get_canvas.getD y []).length =
      if y < h2 then w2 else 0) ∧
    (∀ y x : Nat, ((c.resize w2 h2).get_canvas.getD y []).getD x pix0 =
      pix0) ∧
    (c.resize w2 h2).prev_point = none := by
  refine ⟨rfl, rfl, rfl, mkZeros_length _ _,
    fun y => mkZeros_row_length _ _ y, fun y x => mkZeros_pixel _ _ y x,
    rfl⟩

/-- C9: `clear_previous` followed by `draw_from_previous` at `p` renders
exactly an isolated filled disc of brush radius at `p` on the existing
surface — never a line back to any earlier coordinate. -/
theorem clear_previous_then_draw_isolated (c : DrawingCanvas) (p : Point)
    (col : Pixel) :
    (c.clear_previous).draw_from_previous (some p) col =
      { c with canvas := cvCircle c.canvas p c.brush_size col,
               prev_point := some p } := by
  simp [DrawingCanvas.clear_previous, DrawingCanvas.draw_from_previous,
    DrawingCanvas.draw_point]

/-- C10: `draw_line`, `draw_point` and `erase_at` never change the previous
point; `draw_from_previous` with a present point sets it to that point; and
`clear_previous`, `reset` and `resize` clear it. -/
theorem prev_point_mutation_discipline (c : DrawingCanvas)
    (s e pt : Option Point) (q : Point) (col : Pixel) (w h : Nat) :
    (c.draw_line s e col).prev_point = c.prev_point ∧
    (c.draw_point pt col).prev_point = c.prev_point ∧
    (c.erase_at pt).prev_point = c.prev_point ∧
    (c.draw_from_previous (some q) col).prev_point = some q ∧
    (c.clear_previous).prev_point = none ∧
    (c.reset).prev_point = none ∧
    (c.resize w h).prev_point = none := by
  refine ⟨?_, ?_, ?_, rfl, rfl, rfl, rfl⟩
  · cases s <;> cases e <;> rfl
  · cases pt <;> rfl
  · cases pt <;> rfl

/-! ## Witnesses -/

/-- A concrete 2×2 canvas holding one drawn (green) pixel. -/
def canvasC1 : DrawingCanvas :=
  { width := 2, height := 2,
    canvas := [[(0, 255, 0), pix0], [pix0, pix0]],
    prev_point := none, brush_size := 5, eraser_size := 30 }

/-- A concrete uniform gray 2×2 frame. -/
def frameC1 : Image :=
  [[(128, 128, 128), (128, 128, 128)],
   [(128, 128, 128), (128, 128, 128)]]

/-- Witness for C1 at a concrete canvas and matching frame. -/
theorem add_to_frame_masked_composite_witness :
    ∃ out, (canvasC1.add_to_frame frameC1).1 = some out ∧
      ∀ y x : Nat, y < canvasC1.canvas.length →
        x < (canvasC1.canvas.getD y []).length →
        (out.getD y []).getD x pix0 =
          if pixelNonzero ((canvasC1.canvas.getD y []).getD x pix0) = true
          then (canvasC1.canvas.getD y []).getD x pix0
          else (frameC1.getD y []).getD x pix0 :=
  add_to_frame_masked_composite canvasC1 frameC1 (by decide)

/-- A concrete 3×3 canvas mid-stroke (previous point present). -/
def canvasC2 : DrawingCanvas :=
  { DrawingCanvas.new 3 3 with prev_point := some (1, 1) }

/-- Witness for C2: both the line branch (previous point present) and the
point branch (fresh canvas) at concrete inputs. -/
theorem draw_from_previous_branch_spec_witness :
    canvasC2.draw_from_previous (some (2, 2)) (10, 20, 30) =
      { canvasC2 with
          canvas := cvLine canvasC2.canvas (1, 1) (2, 2) (10, 20, 30)
            canvasC2.brush_size,
          prev_point := some (2, 2) } ∧
    (DrawingCanvas.new 3 3).draw_from_previous (some (2, 2)) (10, 20, 30) =
      { DrawingCanvas.new 3 3 with
          canvas := cvCircle (DrawingCanvas.new 3 3).canvas (2, 2)
            (DrawingCanvas.new 3 3).brush_size (10, 20, 30),
          prev_point := some (2, 2) } :=
  ⟨(draw_from_previous_branch_spec canvasC2 (2, 2) (10, 20, 30)).1
      (1, 1) rfl,
   (draw_from_previous_branch_spec (DrawingCanvas.new 3 3) (2, 2)
      (10, 20, 30)).2.1 rfl⟩

/-- A concrete 2×2 canvas for the shape-mismatch witness. -/
def canvasC3 : DrawingCanvas := DrawingCanvas.new 2 2

/-- Witness for C3: a 1×1 frame against a 2×2 surface fails. -/
theorem add_to_frame_shape_mismatch_fails_witness :
    (canvasC3.add_to_frame [[pix0]]).1 = none :=
  add_to_frame_shape_mismatch_fails canvasC3 [[pix0]] (by decide)

/-- A concrete 3×3 canvas with a colored disc drawn at `(1, 1)`. -/
def canvasC5 : DrawingCanvas :=
  (DrawingCanvas.new 3 3).draw_point (some (1, 1)) (10, 20, 30)

/-- Witness for C5: erasing at `(1, 1)` zeroes the previously colored
pixel at `(1, 1)`. -/
theorem erase_at_zeroes_disc_preserves_prev_witness :
    ((canvasC5.erase_at (some (1, 1))).canvas.getD 1 []).getD 1 pix0 =
      pix0 :=
  (erase_at_zeroes_disc_preserves_prev canvasC5 (1, 1)).2.1 1 1
    (by decide) (by decide) (by decide)
